import Mathlib

/-!
Verification of the AttractorCanvas simulation core (src/attractor.js) against
its specification. The JavaScript is shallowly embedded over an arbitrary
linear ordered field with a floor function; JavaScript numbers are modelled by
`JSNum`, an exact field value extended with the IEEE special values NaN and
plus or minus infinity, with the comparison and arithmetic rules JavaScript
gives those special values (finite arithmetic is exact rather than rounded).
The library functions Math.sqrt and Math.log and the constant Math.SQRT2,
whose values are irrational, enter the engine as explicit parameters of the
configuration; concrete runs instantiate them with stand-ins and are only used
to settle claims whose truth does not depend on those functions' values.
-/

set_option maxRecDepth 100000
set_option allowUnsafeReducibility true
set_option linter.unusedSectionVars false
attribute [semireducible] Rat.add Rat.mul Rat.sub Rat.inv Rat.ofScientific

/-- A JavaScript number: NaN, plus infinity, minus infinity, or a finite value
drawn from the field `α` (exact; double rounding is not modelled). -/
inductive JSNum (α : Type) where
  | nan : JSNum α
  | inf : JSNum α
  | ninf : JSNum α
  | fin : α → JSNum α
deriving DecidableEq

namespace JSNum

variable {α : Type} [LinearOrderedField α] [DecidableEq α]
variable [DecidableRel ((· < ·) : α → α → Prop)] [DecidableRel ((· ≤ ·) : α → α → Prop)]

/-- JavaScript isNaN. -/
def isNaN : JSNum α → Bool
  | .nan => true
  | _ => false

/-- JavaScript unary minus. -/
def jneg : JSNum α → JSNum α
  | .nan => .nan
  | .inf => .ninf
  | .ninf => .inf
  | .fin a => .fin (-a)

/-- JavaScript addition with the IEEE special-value rules. -/
def jadd : JSNum α → JSNum α → JSNum α
  | .nan, _ => .nan
  | _, .nan => .nan
  | .inf, .ninf => .nan
  | .ninf, .inf => .nan
  | .inf, _ => .inf
  | _, .inf => .inf
  | .ninf, _ => .ninf
  | _, .ninf => .ninf
  | .fin a, .fin b => .fin (a + b)

/-- JavaScript subtraction, a − b = a + (−b) (exact for IEEE as well). -/
def jsub (a b : JSNum α) : JSNum α := jadd a (jneg b)

/-- JavaScript multiplication with the IEEE special-value rules
(infinity times zero is NaN). -/
def jmul : JSNum α → JSNum α → JSNum α
  | .nan, _ => .nan
  | _, .nan => .nan
  | .inf, .inf => .inf
  | .inf, .ninf => .ninf
  | .ninf, .inf => .ninf
  | .ninf, .ninf => .inf
  | .inf, .fin b => if b = 0 then .nan else if 0 < b then .inf else .ninf
  | .fin a, .inf => if a = 0 then .nan else if 0 < a then .inf else .ninf
  | .ninf, .fin b => if b = 0 then .nan else if 0 < b then .ninf else .inf
  | .fin a, .ninf => if a = 0 then .nan else if 0 < a then .ninf else .inf
  | .fin a, .fin b => .fin (a * b)

/-- JavaScript division with the IEEE special-value rules (the model has no
negative zero, so a finite value divided by zero takes the sign of the
numerator, and zero divided by zero is NaN). -/
def jdiv : JSNum α → JSNum α → JSNum α
  | .nan, _ => .nan
  | _, .nan => .nan
  | .inf, .inf => .nan
  | .inf, .ninf => .nan
  | .ninf, .inf => .nan
  | .ninf, .ninf => .nan
  | .inf, .fin b => if 0 ≤ b then .inf else .ninf
  | .ninf, .fin b => if 0 ≤ b then .ninf else .inf
  | .fin _, .inf => .fin 0
  | .fin _, .ninf => .fin 0
  | .fin a, .fin b =>
    if b = 0 then (if a = 0 then .nan else if 0 < a then .inf else .ninf)
    else .fin (a / b)

/-- JavaScript Math.abs. -/
def jabs : JSNum α → JSNum α
  | .nan => .nan
  | .inf => .inf
  | .ninf => .inf
  | .fin a => .fin |a|

/-- The JavaScript strict-less-than comparison: false whenever one side is
NaN, and the usual extended-real order otherwise. -/
def jlt : JSNum α → JSNum α → Bool
  | .nan, _ => false
  | _, .nan => false
  | .ninf, .ninf => false
  | .ninf, _ => true
  | _, .ninf => false
  | .inf, _ => false
  | .fin _, .inf => true
  | .fin a, .fin b => decide (a < b)

/-- The JavaScript less-or-equal comparison: false whenever one side is
NaN, and the usual extended-real order otherwise. -/
def jle : JSNum α → JSNum α → Bool
  | .nan, _ => false
  | _, .nan => false
  | .ninf, _ => true
  | _, .ninf => false
  | _, .inf => true
  | .inf, .fin _ => false
  | .fin a, .fin b => decide (a ≤ b)

end JSNum

open JSNum

section Mapper

variable {α : Type} [LinearOrderedField α] [FloorRing α]

/-- JavaScript Math.round for a finite value: round half toward plus
infinity, that is the floor of the value plus one half. -/
def jsRound (q : α) : ℤ := ⌊q + 1/2⌋

/-- Source colToX (attractor.js line 316): logical x of pixel column c,
`(c + 0.5 - width/2) / zoom + centreX`. -/
def colToX (w zoom cx c : α) : α := (c + 1/2 - w/2) / zoom + cx

/-- Source rowToY (attractor.js line 319): logical y of pixel row r,
`(r - 0.5 - height/2) / -zoom + centreY` (canvas Y axis inverted). -/
def rowToY (h zoom cy r : α) : α := (r - 1/2 - h/2) / (-zoom) + cy

/-- Source xToCol (attractor.js line 323):
`Math.round((x - centreX) * zoom + width/2)`. -/
def xToCol (w zoom cx x : α) : ℤ := jsRound ((x - cx) * zoom + w/2)

/-- Source yToRow (attractor.js line 326):
`Math.round((y - centreY) * -zoom + height/2)`. -/
def yToRow (h zoom cy y : α) : ℤ := jsRound ((y - cy) * (-zoom) + h/2)

end Mapper

section Engine

variable (α : Type) (π : Type)

/-- A dynamical system's iteration function as the engine calls it:
`sys.iterate(x, y, params)` returning the next point, or `none` when the
JavaScript function throws. -/
def IterFn : Type := JSNum α → JSNum α → π → Option (JSNum α × JSNum α)

/-- One `setPixel` call of the render loop (attractor.js line 420), together
with the arguments that were passed to the colour mapper for it: the
iteration index, the pixel row and column, the fourth colour-mapper argument
`xToCol(previousX)/width`, and the colour written. -/
structure DrawEvent where
  i : ℕ
  row : JSNum α
  col : JSNum α
  prevArg : JSNum α
  rgb : ℕ × ℕ × ℕ
deriving DecidableEq

/-- The run configuration captured by `update()` when a run starts: the
canvas size, viewport, iteration budget, the system's initial point, and the
model parameters for the library functions Math.SQRT2, Math.sqrt, Math.log
and the active colour mapper. -/
structure EngineConfig where
  width : ℕ
  height : ℕ
  centreX : α
  centreY : α
  zoom : α
  iterations : ℕ
  x0 : α
  y0 : α
  sqrt2 : α
  sqrtF : JSNum α → JSNum α
  logF : JSNum α → JSNum α
  colourFunc : ℕ → JSNum α → JSNum α → JSNum α → ℕ × ℕ × ℕ

/-- The mutable custom slots of the catalog the running system resolves
through: `systems[last].iterate` (replaced by setCustomIterationFunction,
attractor.js line 307) and the custom parameter-set slot (replaced by
setCustomParameterSet, line 311). The engine reads `sys.iterate` afresh on
every call, but captures the parameter-set object once at run start. -/
structure Catalog where
  customIterate : IterFn α π
  customParams : π

/-- An external control action performed between scheduler slices. -/
inductive CatalogEdit where
  | setIterate (f : IterFn α π)
  | setParams (p : π)

/-- The state of the `updateFunc` loop (attractor.js lines 340 to 501): the
loop counter i, main point (x, y), partner point (xe, ye), previousX, the
running Lyapunov total `this.lyapunov`, the sample count lyapunovNumIter,
the `this.running` flag, and the trace of setPixel calls made so far. -/
structure EngineState where
  i : ℕ
  x : JSNum α
  y : JSNum α
  xe : JSNum α
  ye : JSNum α
  previousX : JSNum α
  lyapunov : JSNum α
  lyapunovNumIter : ℕ
  running : Bool
  draws : List (DrawEvent α)
deriving DecidableEq

/-- How a run ends. `completed` is the budget exhausted; `stopped` the
`!this.running` abort; `escaped`, `converged`, `faulted` the three detector
returns; `lyapunovFault` the three `throw "NaN lyapunov exponent"` sites;
`crashed` an exception out of the uncaught partner-point iterate call
(line 453); `outOfFuel` is an artifact of the model's fuelled recursion and
is never reached for any configured budget. -/
inductive Outcome where
  | completed
  | stopped
  | escaped
  | converged
  | faulted
  | lyapunovFault
  | crashed
  | outOfFuel
deriving DecidableEq

end Engine

namespace AttractorRun

variable {α : Type} [LinearOrderedField α] [FloorRing α] [DecidableEq α]
variable [DecidableRel ((· < ·) : α → α → Prop)] [DecidableRel ((· ≤ ·) : α → α → Prop)]
variable {π : Type}

/-- Apply one control action to the catalog: setCustomIterationFunction
replaces `systems[last].iterate`, setCustomParameterSet replaces the custom
parameter-set slot with a new object. -/
def applyEdit : Catalog α π → CatalogEdit α π → Catalog α π
  | c, .setIterate f => { c with customIterate := f }
  | c, .setParams p => { c with customParams := p }

/-- The small constant eta of update(): `Math.pow(10, -12)` (line 350),
taken exactly. -/
def eta (α : Type) [LinearOrderedField α] : α := 1 / 1000000000000

/-- The initial separation d0 of main and partner point:
`Math.SQRT2 * eta` (line 354), with Math.SQRT2 a configuration parameter. -/
def d0 (cfg : EngineConfig α) : JSNum α := .fin (cfg.sqrt2 * eta α)

/-- The escape bound: `Math.pow(2, 32)` (line 358). -/
def xmaxN : JSNum α := .fin 4294967296

/-- The negated escape bound: xmin = -xmax, ymin = xmin, ymax = xmax. -/
def xminN : JSNum α := .fin (-4294967296)

/-- Left boundary of the drawing area, `this.colToX(0)` (line 360). -/
def leftB (cfg : EngineConfig α) : α := colToX (cfg.width : α) cfg.zoom cfg.centreX 0

/-- Right boundary, `this.colToX(this.canvas.width)` (line 361). -/
def rightB (cfg : EngineConfig α) : α :=
  colToX (cfg.width : α) cfg.zoom cfg.centreX (cfg.width : α)

/-- Top boundary, `this.rowToY(this.canvas.height)` (line 363). -/
def topB (cfg : EngineConfig α) : α :=
  rowToY (cfg.height : α) cfg.zoom cfg.centreY (cfg.height : α)

/-- Bottom boundary, `this.rowToY(0)` (line 364). -/
def bottomB (cfg : EngineConfig α) : α := rowToY (cfg.height : α) cfg.zoom cfg.centreY 0

/-- xToCol lifted to a JavaScript number (Math.round maps NaN to NaN and
keeps the infinities; only finite values reach it in a run). -/
def jsXToCol (cfg : EngineConfig α) : JSNum α → JSNum α
  | .nan => .nan
  | .inf => .inf
  | .ninf => .ninf
  | .fin q => .fin ((xToCol (cfg.width : α) cfg.zoom cfg.centreX q : ℤ) : α)

/-- yToRow lifted to a JavaScript number. -/
def jsYToRow (cfg : EngineConfig α) : JSNum α → JSNum α
  | .nan => .nan
  | .inf => .inf
  | .ninf => .ninf
  | .fin q => .fin ((yToRow (cfg.height : α) cfg.zoom cfg.centreY q : ℤ) : α)

/-- The visibility test of the render loop (line 395):
`x >= left && x < right && y >= top && y < bottom`. -/
def visibleB (cfg : EngineConfig α) (x y : JSNum α) : Bool :=
  jle (.fin (leftB cfg)) x && jlt x (.fin (rightB cfg)) &&
    jle (.fin (topB cfg)) y && jlt y (.fin (bottomB cfg))

/-- The previousX adjustment of lines 416 to 418: if previousX < 0 it is
shifted up by the canvas width before being handed to the colour mapper. -/
def adjustPrev (cfg : EngineConfig α) (v : JSNum α) : JSNum α :=
  if jlt v (.fin 0) then jadd v (.fin (cfg.width : α)) else v

/-- The fourth argument passed to the colour mapper (line 419):
`this.xToCol(previousX) / that.canvas.width`. -/
def colourArg (cfg : EngineConfig α) (previousX : JSNum α) : JSNum α :=
  jdiv (jsXToCol cfg (adjustPrev cfg previousX)) (.fin (cfg.width : α))

/-- The setPixel calls one loop iteration makes (lines 395 to 421): one when
the main point passes the visibility test, none otherwise. -/
def drawEvents (cfg : EngineConfig α) (st : EngineState α) : List (DrawEvent α) :=
  if visibleB cfg st.x st.y then
    let r := jsYToRow cfg st.y
    let c := jsXToCol cfg st.x
    let arg := colourArg cfg st.previousX
    [⟨st.i, r, c, arg, cfg.colourFunc st.i r c arg⟩]
  else []

/-- The drawing phase of one loop iteration: append its setPixel calls. -/
def drawPhase (cfg : EngineConfig α) (st : EngineState α) : EngineState α :=
  { st with draws := st.draws ++ drawEvents cfg st }

/-- The infinite-attractor test (line 423):
`x < xmin || x > xmax || y < ymin || y > ymax`. -/
def escapeB (st : EngineState α) : Bool :=
  jlt st.x xminN || jlt xmaxN st.x || jlt st.y xminN || jlt xmaxN st.y

/-- Set `this.running = false`, as every detector return does. -/
def stopRun (st : EngineState α) : EngineState α := { st with running := false }

/-- The result of one loop iteration: either the run halts with a terminal
outcome, or the loop continues with the advanced state. -/
inductive StepRes (α : Type) where
  | halted (o : Outcome) (st : EngineState α)
  | cont (st : EngineState α)
deriving DecidableEq

/-- The body of one loop iteration after the `!this.running` abort check and
the drawing phase: the escape test, the iterate call with its fault checks,
the convergence test, the partner-point call, the Lyapunov block guarded by
`i > 1000`, and the loop-increment clause `i++, previousX = x, x = next.x,
y = next.y` (attractor.js lines 422 to 480 plus the increment of line 387). -/
def updateStepAux (cfg : EngineConfig α) (it : IterFn α π) (pc : π) (st1 : EngineState α) :
    StepRes α :=
  if escapeB st1 then .halted .escaped (stopRun st1)
  else
      match it st1.x st1.y pc with
      | none => .halted .faulted (stopRun st1)
      | some (nx, ny) =>
        if nx.isNaN || ny.isNaN then .halted .faulted (stopRun st1)
        else
          let dx := jabs (jsub st1.x nx)
          let dy := jabs (jsub st1.y ny)
          if jlt dx (.fin (eta α)) && jlt dy (.fin (eta α)) && decide (50 < st1.i) then
            .halted .converged (stopRun st1)
          else
            match it st1.xe st1.ye pc with
            | none => .halted .crashed st1
            | some (nex, ney) =>
              if decide (1000 < st1.i) then
                if st1.lyapunov.isNaN then .halted .lyapunovFault (stopRun st1)
                else
                  let ndx := jsub nx nex
                  let ndy := jsub ny ney
                  let nd := cfg.sqrtF (jadd (jmul ndx ndx) (jmul ndy ndy))
                  let ly := jadd st1.lyapunov (cfg.logF (jdiv nd (d0 cfg)))
                  if ly.isNaN then .halted .lyapunovFault (stopRun { st1 with lyapunov := ly })
                  else
                    .cont { st1 with
                      i := st1.i + 1
                      previousX := st1.x
                      x := nx
                      y := ny
                      xe := jadd nx (jdiv (jmul (d0 cfg) ndx) nd)
                      ye := jadd ny (jdiv (jmul (d0 cfg) ndy) nd)
                      lyapunov := ly
                      lyapunovNumIter := st1.lyapunovNumIter + 1 }
              else
                .cont { st1 with
                  i := st1.i + 1
                  previousX := st1.x
                  x := nx
                  y := ny }

/-- One iteration of the `for` loop of updateFunc (lines 385 to 480): the
`!this.running` abort check, the drawing phase, then the loop body. `it` is
the iterate function resolved for this slice (`sys.iterate`, looked up
through the captured system object), `pc` the parameter set captured at
run start. -/
def updateStep (cfg : EngineConfig α) (it : IterFn α π) (pc : π) (st : EngineState α) :
    StepRes α :=
  if st.running then updateStepAux cfg it pc (drawPhase cfg st)
  else .halted .stopped st

/-- The result of one scheduler slice: the run halted inside the loop, or
the slice ran its full quota of iterations. -/
inductive LoopRes (α : Type) where
  | halted (o : Outcome) (st : EngineState α)
  | ran (st : EngineState α)
deriving DecidableEq

/-- The `for` loop of one slice, running up to n iterations
(n = `Math.min(this.iterations, 1000)`, line 384). -/
def updateLoop (cfg : EngineConfig α) (it : IterFn α π) (pc : π) :
    ℕ → EngineState α → LoopRes α
  | 0, st => .ran st
  | n + 1, st =>
    match updateStep cfg it pc st with
    | .halted o s => .halted o s
    | .cont s => updateLoop cfg it pc n s

/-- The end-of-slice Lyapunov averaging (lines 481 to 490): when at least one
sample was taken, `this.lyapunov /= lyapunovNumIter`, with a NaN check. -/
def sliceEnd (st : EngineState α) : StepRes α :=
  if st.lyapunovNumIter ≠ 0 then
    let ly := jdiv st.lyapunov (.fin (st.lyapunovNumIter : α))
    if ly.isNaN then .halted .lyapunovFault (stopRun { st with lyapunov := ly })
    else .cont { st with lyapunov := ly }
  else .cont st

/-- A finished run: its terminal outcome and the final loop state. -/
structure RunResult (α : Type) where
  outcome : Outcome
  st : EngineState α
deriving DecidableEq

/-- The slice scheduler (updateFunc re-invoked through setImmediate, lines
492 to 500): run one slice; on an in-loop halt report it; otherwise apply the
end-of-slice averaging, and re-schedule while `this.running && i <
this.iterations`. Between slices the event loop runs, so an external edit of
the catalog's custom slots (indexed by the slice number k) takes effect
there; the iterate function is resolved from the catalog each slice because
the source reads `sys.iterate` on every call, while the parameter set `pc`
was captured once at run start. The fuel argument only bounds the recursion
and is chosen larger than any possible slice count. -/
def runSlices (cfg : EngineConfig α) (pc : π) (edits : ℕ → Option (CatalogEdit α π)) :
    ℕ → ℕ → Catalog α π → EngineState α → RunResult α
  | 0, _, _, st => ⟨.outOfFuel, st⟩
  | fuel + 1, k, cat, st =>
    match updateLoop cfg cat.customIterate pc (min cfg.iterations 1000) st with
    | .halted o s => ⟨o, s⟩
    | .ran s =>
      match sliceEnd s with
      | .halted o s2 => ⟨o, s2⟩
      | .cont s2 =>
        if s2.running && decide (s2.i < cfg.iterations) then
          let cat2 := match edits k with
            | some e => applyEdit cat e
            | none => cat
          runSlices cfg pc edits fuel (k + 1) cat2 s2
        else ⟨if s2.running then .completed else .stopped, stopRun s2⟩

/-- The loop state update() initialises (lines 342 to 369): i = 0, the main
point at the system's initial values, the partner point offset by eta in both
axes, previousX = 0, `this.lyapunov = 0`, no samples, running, nothing drawn. -/
def initState (cfg : EngineConfig α) : EngineState α where
  i := 0
  x := .fin cfg.x0
  y := .fin cfg.y0
  xe := .fin (cfg.x0 + eta α)
  ye := .fin (cfg.y0 + eta α)
  previousX := .fin 0
  lyapunov := .fin 0
  lyapunovNumIter := 0
  running := true
  draws := []

/-- A whole run of update(): capture the parameter set from the catalog,
initialise the loop state, and run slices to termination. -/
def runUpdate (cfg : EngineConfig α) (cat : Catalog α π)
    (edits : ℕ → Option (CatalogEdit α π)) : RunResult α :=
  runSlices cfg cat.customParams edits (cfg.iterations + 1) 0 cat (initState cfg)

/-- No external control actions during the run. -/
def noEdits : ℕ → Option (CatalogEdit α π) := fun _ => none

/-- The primary trajectory as a pure sequence: the point before iteration n,
obtained by n applications of the iterate function to the initial point (the
placeholder pair of NaNs stands for a call that threw, which a run never
reads past). -/
def trajectory (it : IterFn α π) (pc : π) (x0 y0 : α) : ℕ → JSNum α × JSNum α
  | 0 => (.fin x0, .fin y0)
  | n + 1 =>
    let p := trajectory it pc x0 y0 n
    (it p.1 p.2 pc).getD (.nan, .nan)

/-- How many of the loop indices a, a+1, ..., a+n-1 are past the Lyapunov
warm-up threshold, that is satisfy `i > 1000`. -/
def warmupCount : ℕ → ℕ → ℕ
  | _, 0 => 0
  | a, n + 1 => (if 1000 < a then 1 else 0) + warmupCount (a + 1) n

/-- The specified value of the loop's previousX variable at the start of
iteration j: the x coordinate of the previous primary point, and 0 before
the first iteration (its initialisation, line 366). -/
def specPrevX (it : IterFn α π) (pc : π) (x0 y0 : α) (j : ℕ) : JSNum α :=
  if j = 0 then .fin 0 else (trajectory it pc x0 y0 (j - 1)).1

/-- The loop state agrees with the pure trajectory: the main point is the
trajectory point of the current index, previousX is the previous trajectory
point's x value, and every pixel written so far received as its fourth
colour-mapper argument the transformed previousX of its own iteration. -/
def Synced (cfg : EngineConfig α) (it : IterFn α π) (pc : π) (st : EngineState α) : Prop :=
  st.x = (trajectory it pc cfg.x0 cfg.y0 st.i).1 ∧
  st.y = (trajectory it pc cfg.x0 cfg.y0 st.i).2 ∧
  st.previousX = specPrevX it pc cfg.x0 cfg.y0 st.i ∧
  ∀ e ∈ st.draws, e.prevArg = colourArg cfg (specPrevX it pc cfg.x0 cfg.y0 e.i)

end AttractorRun

open AttractorRun

section Instances

/-! Concrete run configurations over the rationals, used to evaluate the
engine on specific inputs. The iterate functions play the role of custom
iteration functions installed through setCustomIterationFunction; `sqrtStand`
and the two `log` functions are stand-ins for the library functions
Math.sqrt and Math.log, and `3/2` for Math.SQRT2 — the claims settled on
these runs concern the engine's control flow and sample bookkeeping, which
do not depend on those functions' values. -/

/-- The identity map, `f(x, y) = (x, y)` (the spec's convergence scenario). -/
def identIter : IterFn ℚ Unit := fun x y _ => some (x, y)

/-- An iterate that returns NaN for x on every call (the spec's fault
scenario: it already faults on the first call). -/
def nanIter : IterFn ℚ Unit := fun _ _ _ => some (.nan, .fin 0)

/-- An iterate that returns positive infinity for x on every call. -/
def infIter : IterFn ℚ Unit := fun _ _ _ => some (.inf, .fin 0)

/-- The map `f(x, y) = (-x, -y)`: bounded, never converging, never faulting. -/
def negFlip : IterFn ℚ Unit := fun x y _ => some (jneg x, jneg y)

/-- The map `f(x, y) = (2x, -y)`: x doubles every step and eventually
escapes, y flips sign so the convergence test never fires. -/
def doubleFlip : IterFn ℚ Unit := fun x y _ => some (jmul (.fin 2) x, jneg y)

/-- The constant map to (5, 5): converges immediately once past warm-up. -/
def constFive : IterFn ℚ Unit := fun _ _ _ => some (.fin 5, .fin 5)

/-- The `Black` colour mode of the source catalog: constant black. -/
def blackColour : ℕ → JSNum ℚ → JSNum ℚ → JSNum ℚ → ℕ × ℕ × ℕ := fun _ _ _ _ => (0, 0, 0)

/-- Stand-in for Math.sqrt. -/
def sqrtStand : JSNum ℚ → JSNum ℚ := fun v => v

/-- Stand-in for Math.log that returns 1 for every sample, so the
accumulated Lyapunov sum equals the sample count. -/
def logOne : JSNum ℚ → JSNum ℚ := fun _ => .fin 1

/-- Stand-in for Math.log that returns 0 for every sample. -/
def logZero : JSNum ℚ → JSNum ℚ := fun _ => .fin 0

/-- A 4 by 4 viewport centred far from the trajectories used with it, so no
point is ever visible and the runs draw nothing. -/
def cfgShared : EngineConfig ℚ where
  width := 4
  height := 4
  centreX := 100
  centreY := 100
  zoom := 1
  iterations := 2000
  x0 := 1
  y0 := 1
  sqrt2 := 3/2
  sqrtF := sqrtStand
  logF := logZero
  colourFunc := blackColour

/-- The catalog whose custom slot holds `negFlip`. -/
def catShared : Catalog ℚ Unit := ⟨negFlip, ()⟩

/-- The final state of the two-thousand-iteration `negFlip` run, computed by
the engine itself (see sharedRunEval below). -/
def sharedFinal : EngineState ℚ where
  i := 2000
  x := .fin 1
  y := .fin 1
  xe := .fin (2666666666669/2666666666668)
  ye := .fin (2666666666669/2666666666668)
  previousX := .fin (-1)
  lyapunov := .fin 0
  lyapunovNumIter := 999
  running := false
  draws := []

/-- Replace the custom iterate function by `constFive` after the first
scheduler slice (while the run is in progress). -/
def c4edits : ℕ → Option (CatalogEdit ℚ Unit) :=
  fun k => if k = 0 then some (.setIterate constFive) else none

/-- The final state of the run interrupted by the mid-run edit: the edit is
picked up and the run converges on (5, 5) at iteration 1001. -/
def c4Final : EngineState ℚ where
  i := 1001
  x := .fin 5
  y := .fin 5
  xe := .fin (1000000000001/1000000000000)
  ye := .fin (1000000000001/1000000000000)
  previousX := .fin 1
  lyapunov := .fin 0
  lyapunovNumIter := 0
  running := false
  draws := []

/-- Configuration of the escape run used against the Lyapunov-average claim:
x starts at 2 to the power -970 and doubles every step, exceeding the escape
bound 2 to the power 32 at iteration 1003, after the two Lyapunov samples at
iterations 1001 and 1002. -/
def cfgEscape : EngineConfig ℚ where
  width := 4
  height := 4
  centreX := 1000000
  centreY := 1000000
  zoom := 1
  iterations := 50000
  x0 := 1 / 9979201547673599058281863565184192830337256302177287707512736212186059459344820328924789827463178505446712234220962476219862189941967968303695858991424157101600028364755428382587688607221814935913266783722719619966654052275604351944444276342240220787535604534378780208211792476151720049639424
  y0 := 1
  sqrt2 := 3/2
  sqrtF := sqrtStand
  logF := logOne
  colourFunc := blackColour

/-- The catalog whose custom slot holds `doubleFlip`. -/
def catEscape : Catalog ℚ Unit := ⟨doubleFlip, ()⟩

/-- Identity-map run with a parametric iteration budget, for the convergence
claim: the Custom system's initial point (0, 0), kept out of view. -/
def cfgIdent (budget : ℕ) : EngineConfig ℚ where
  width := 4
  height := 4
  centreX := 100
  centreY := 100
  zoom := 1
  iterations := budget
  x0 := 0
  y0 := 0
  sqrt2 := 3/2
  sqrtF := sqrtStand
  logF := logZero
  colourFunc := blackColour

/-- The catalog whose custom slot holds the identity map. -/
def catIdent : Catalog ℚ Unit := ⟨identIter, ()⟩

/-- The catalog whose custom slot holds `nanIter`. -/
def catNan : Catalog ℚ Unit := ⟨nanIter, ()⟩

/-- The catalog whose custom slot holds `infIter`. -/
def catInf : Catalog ℚ Unit := ⟨infIter, ()⟩

/-- Visible run for the colour-mapper argument claim: the 400 by 400
viewport at zoom 100 centred on the origin, identity map from (1, 1),
budget two. -/
def cfgColour : EngineConfig ℚ where
  width := 400
  height := 400
  centreX := 0
  centreY := 0
  zoom := 100
  iterations := 2
  x0 := 1
  y0 := 1
  sqrt2 := 3/2
  sqrtF := sqrtStand
  logF := logZero
  colourFunc := blackColour

/-- A placeholder draw event for out-of-range list reads in statements. -/
def defaultEvent : DrawEvent ℚ := ⟨0, .nan, .nan, .nan, (0, 0, 0)⟩

/-- The loop state at which the identity run halts: iteration 51, both
points still at the origin, the partner point still at its initial offset,
nothing drawn. -/
def identHalt : EngineState ℚ where
  i := 51
  x := .fin 0
  y := .fin 0
  xe := .fin (1/1000000000000)
  ye := .fin (1/1000000000000)
  previousX := .fin 0
  lyapunov := .fin 0
  lyapunovNumIter := 0
  running := false
  draws := []

/-- Replace the custom parameter set (only) after the first slice. -/
def paramEditOnly : ℕ → Option (CatalogEdit ℚ Unit) :=
  fun k => if k = 0 then some (.setParams ()) else none

/-- A 4 by 4 viewport at zoom one centred on the origin, used to exhibit
edge pixels of the visibility test. -/
def cfgTiny : EngineConfig ℚ where
  width := 4
  height := 4
  centreX := 0
  centreY := 0
  zoom := 1
  iterations := 0
  x0 := 0
  y0 := 0
  sqrt2 := 3/2
  sqrtF := sqrtStand
  logF := logZero
  colourFunc := blackColour

end Instances

noncomputable section RealInstance

/-! The Peter de Jong system embedded over the real numbers, for the spec's
concrete scenario. Math.sin, Math.cos, Math.sqrt and Math.log are modelled
by the real functions with the JavaScript special-value rules; the finite
arithmetic is exact where the source uses doubles. -/

/-- JavaScript Math.sin (NaN on every non-finite input). -/
def jsSin : JSNum ℝ → JSNum ℝ
  | .fin v => .fin (Real.sin v)
  | _ => .nan

/-- JavaScript Math.cos. -/
def jsCos : JSNum ℝ → JSNum ℝ
  | .fin v => .fin (Real.cos v)
  | _ => .nan

/-- JavaScript Math.sqrt: NaN below zero and on NaN or minus infinity. -/
def jsSqrtR : JSNum ℝ → JSNum ℝ
  | .fin v => if v < 0 then .nan else .fin (Real.sqrt v)
  | .inf => .inf
  | _ => .nan

/-- JavaScript Math.log: NaN below zero, minus infinity at zero. -/
def jsLogR : JSNum ℝ → JSNum ℝ
  | .fin v => if v < 0 then .nan else if v = 0 then .ninf else .fin (Real.log v)
  | .inf => .inf
  | _ => .nan

/-- The Peter de Jong parameter set {a, b, c, d}. -/
structure DeJongParams where
  a : ℝ
  b : ℝ
  c : ℝ
  d : ℝ

/-- The Peter de Jong iterate (attractor.js lines 83 to 88):
`x' = sin(a y) - cos(b x)`, `y' = sin(c x) - cos(d y)`. -/
def deJongIter : IterFn ℝ DeJongParams := fun x y p =>
  some (jsub (jsSin (jmul (.fin p.a) y)) (jsCos (jmul (.fin p.b) x)),
    jsub (jsSin (jmul (.fin p.c) x)) (jsCos (jmul (.fin p.d) y)))

/-- The spec's concrete scenario: 400 by 400 viewport, zoom 100, centre the
origin, initial point (1, 1), budget 100000, with the Prev-X colour mode's
shape irrelevant to the claim (constant colour used). -/
def cfgDeJong : EngineConfig ℝ where
  width := 400
  height := 400
  centreX := 0
  centreY := 0
  zoom := 100
  iterations := 100000
  x0 := 1
  y0 := 1
  sqrt2 := Real.sqrt 2
  sqrtF := jsSqrtR
  logF := jsLogR
  colourFunc := fun _ _ _ _ => (0, 0, 0)

/-- The first built-in Peter de Jong parameter set, the one of the spec's
concrete scenario. -/
def catDeJong : Catalog ℝ DeJongParams :=
  ⟨deJongIter, ⟨-0.89567065, 1.59095860, 1.8515863, 2.1974306⟩⟩

end RealInstance

section CatalogData

/-- A system of the catalog as the constructor manipulates it: its name and
its ordered parameter sets, each a named mapping of real-valued parameters
(the iterate function and initial values play no part in the constructor's
append and are omitted here). -/
structure CatSystem where
  name : String
  parameterSets : List (List (String × ℚ))
deriving DecidableEq

/-- The built-in system catalog (attractor.js lines 74 to 242), before the
constructor appends the custom parameter sets. -/
def attractorSystems : List CatSystem := [
  ⟨"Peter de Jong", [
    [("a", -0.89567065), ("b", 1.59095860), ("c", 1.8515863), ("d", 2.197430600)],
    [("a", -1.97378990), ("b", -0.29585147), ("c", -2.3156738), ("d", 0.040812516)],
    [("a", 2.03372000), ("b", -0.78980076), ("c", -0.5964787), ("d", -1.758290150)],
    [("a", -2.09892100), ("b", -0.30945826), ("c", 1.4205422), ("d", 0.232973580)],
    [("a", -1.21448970), ("b", -0.59580576), ("c", -2.2561285), ("d", 0.960403900)],
    [("a", 1.41914030), ("b", -2.28415230), ("c", 2.4275403), ("d", -2.177196000)],
    [("a", -0.5206013), ("b", -2.083939), ("c", 0.7189889), ("d", -2.40354)],
    [("a", -2.830518), ("b", 1.967394), ("c", 1.700244), ("d", 1.746933)]]⟩,
  ⟨"Duffing", [
    [("a", 2.75), ("b", 0.2)]]⟩,
  ⟨"Hénon", [
    [("a", 0.2), ("b", 0.9991)],
    [("a", 1.4), ("b", 0.3)],
    [("a", 0.2), ("b", 1.01)],
    [("a", 0.2), ("b", -0.99999)]]⟩,
  ⟨"Gingerbread man", [[]]⟩,
  ⟨"Tinkerbell map", [
    [("a", 0.9), ("b", -0.6013), ("c", 2), ("d", 0.50)]]⟩,
  ⟨"Bogdanov map", [
    [("eta", 0.15), ("mu", -1.7), ("h", 0.3)],
    [("eta", 0), ("mu", 2), ("h", 1.44)],
    [("eta", 0.001), ("mu", -0.1), ("h", 1.44)]]⟩,
  ⟨"Quadratic map", [
    [("a1", -1.2), ("a2", 0), ("a3", 0.7), ("a4", 0), ("a5", 0.1), ("a6", 0.4),
     ("a7", 0.4), ("a8", 1.1), ("a9", 0.8), ("a10", 1.2), ("a11", -0.6), ("a12", -1.2)],
    [("a1", -1), ("a2", 0.9), ("a3", 0.4), ("a4", -0.2), ("a5", -0.6), ("a6", -0.5),
     ("a7", 0.4), ("a8", 0.7), ("a9", 0.3), ("a10", -0.5), ("a11", 0.7), ("a12", -0.8)],
    [("a1", -0.7), ("a2", -0.4), ("a3", 0.5), ("a4", -1), ("a5", -0.9), ("a6", -0.8),
     ("a7", 0.5), ("a8", 0.5), ("a9", 0.3), ("a10", 0.9), ("a11", -0.1), ("a12", -0.9)],
    [("a1", -0.6), ("a2", -0.4), ("a3", -0.4), ("a4", -0.8), ("a5", 0.7), ("a6", 0.3),
     ("a7", -0.4), ("a8", 0.4), ("a9", 0.5), ("a10", 0.5), ("a11", 0.8), ("a12", -0.1)],
    [("a1", -0.6), ("a2", -0.1), ("a3", 1.1), ("a4", 0.2), ("a5", -0.8), ("a6", 0.6),
     ("a7", -0.7), ("a8", 0.7), ("a9", 0.7), ("a10", 0.3), ("a11", 0.6), ("a12", 0.9)],
    [("a1", -0.6), ("a2", 1.1), ("a3", 0.4), ("a4", 0.6), ("a5", 0.1), ("a6", 0.6),
     ("a7", -0.2), ("a8", -0.8), ("a9", -0.8), ("a10", -1), ("a11", 0.7), ("a12", 1.1)],
    [("a1", -0.5), ("a2", -0.6), ("a3", 0.8), ("a4", -0.5), ("a5", -0.9), ("a6", 0.3),
     ("a7", -0.5), ("a8", 0.1), ("a9", 0.6), ("a10", -0.6), ("a11", 0.2), ("a12", -0.5)],
    [("a1", -0.4), ("a2", -0.1), ("a3", -0.4), ("a4", -1.1), ("a5", 0.9), ("a6", 0.3),
     ("a7", -0.2), ("a8", -0.3), ("a9", 1), ("a10", -0.6), ("a11", 0.5), ("a12", 0.5)],
    [("a1", -0.1), ("a2", 0.8), ("a3", -0.7), ("a4", -1.1), ("a5", -1.1), ("a6", -0.7),
     ("a7", -0.4), ("a8", 0.6), ("a9", -0.6), ("a10", -0.3), ("a11", 1.2), ("a12", 0.6)],
    [("a1", 0), ("a2", -1), ("a3", 0.5), ("a4", -1.1), ("a5", -0.4), ("a6", 0.3),
     ("a7", 0.2), ("a8", 0.3), ("a9", -0.5), ("a10", 0.7), ("a11", -1.1), ("a12", 0.1)],
    [("a1", 0), ("a2", -0.9), ("a3", 0.9), ("a4", -1.2), ("a5", -0.4), ("a6", -0.9),
     ("a7", 0.2), ("a8", 1.2), ("a9", -0.5), ("a10", 1.2), ("a11", -0.8), ("a12", -1.2)],
    [("a1", 0.2), ("a2", -0.9), ("a3", -0.6), ("a4", 0.4), ("a5", -1), ("a6", 0.1),
     ("a7", 1.1), ("a8", 0.2), ("a9", -0.9), ("a10", 0.1), ("a11", 1.2), ("a12", -1.2)],
    [("a1", 0.4), ("a2", -0.7), ("a3", -0.7), ("a4", 0.9), ("a5", 0.6), ("a6", -0.1),
     ("a7", 0), ("a8", -0.3), ("a9", -0.3), ("a10", -0.6), ("a11", -1), ("a12", 0.5)],
    [("a1", 0.8), ("a2", 1), ("a3", -1.2), ("a4", -1), ("a5", 1.1), ("a6", -0.9),
     ("a7", 0.4), ("a8", -0.4), ("a9", -0.6), ("a10", -0.2), ("a11", -0.5), ("a12", -0.7)],
    [("a1", 0.9), ("a2", -1.1), ("a3", 1), ("a4", 0.1), ("a5", -1.1), ("a6", -0.9),
     ("a7", -0.8), ("a8", -0.1), ("a9", 1.2), ("a10", -0.5), ("a11", 0.8), ("a12", -0.1)],
    [("a1", 1), ("a2", 0.1), ("a3", -1), ("a4", 0.6), ("a5", -0.1), ("a6", -0.7),
     ("a7", -0.1), ("a8", -0.6), ("a9", -0.4), ("a10", -0.5), ("a11", -0.6), ("a12", -0.1)]]⟩,
  ⟨"Custom", [[]]⟩]

/-- The constructor's per-system action (attractor.js lines 40 to 43):
clone the last parameter set (`$.extend(true, {}, sets[sets.length - 1])`,
a deep copy) and push the clone. -/
def appendCustom (s : CatSystem) : CatSystem :=
  { s with parameterSets := s.parameterSets ++ [s.parameterSets.getLastD []] }

/-- The catalog as the `AttractorCanvas.Attractor` constructor leaves it:
every system gains one appended custom parameter set. -/
def initAttractor : List CatSystem := attractorSystems.map appendCustom

/-- setCustomParameterSet for one system (attractor.js lines 311 to 315):
replace the last parameter-set slot with the given set. -/
def setCustomParameterSet (s : CatSystem) (ps : List (String × ℚ)) : CatSystem :=
  { s with parameterSets := s.parameterSets.set (s.parameterSets.length - 1) ps }

end CatalogData

namespace AttractorRun

variable {α : Type} [LinearOrderedField α] [FloorRing α] [DecidableEq α]
variable [DecidableRel ((· < ·) : α → α → Prop)] [DecidableRel ((· ≤ ·) : α → α → Prop)]
variable {π : Type}

theorem drawPhase_i (cfg : EngineConfig α) (st : EngineState α) :
    (drawPhase cfg st).i = st.i := rfl

theorem drawPhase_x (cfg : EngineConfig α) (st : EngineState α) :
    (drawPhase cfg st).x = st.x := rfl

theorem drawPhase_y (cfg : EngineConfig α) (st : EngineState α) :
    (drawPhase cfg st).y = st.y := rfl

theorem drawPhase_xe (cfg : EngineConfig α) (st : EngineState α) :
    (drawPhase cfg st).xe = st.xe := rfl

theorem drawPhase_ye (cfg : EngineConfig α) (st : EngineState α) :
    (drawPhase cfg st).ye = st.ye := rfl

theorem drawPhase_previousX (cfg : EngineConfig α) (st : EngineState α) :
    (drawPhase cfg st).previousX = st.previousX := rfl

theorem drawPhase_lyapunov (cfg : EngineConfig α) (st : EngineState α) :
    (drawPhase cfg st).lyapunov = st.lyapunov := rfl

theorem drawPhase_count (cfg : EngineConfig α) (st : EngineState α) :
    (drawPhase cfg st).lyapunovNumIter = st.lyapunovNumIter := rfl

theorem drawPhase_running (cfg : EngineConfig α) (st : EngineState α) :
    (drawPhase cfg st).running = st.running := rfl

theorem drawPhase_draws (cfg : EngineConfig α) (st : EngineState α) :
    (drawPhase cfg st).draws = st.draws ++ drawEvents cfg st := rfl

theorem warmupCount_eq (a n : ℕ) : warmupCount a n = (a + n) - max a 1001 := by
  induction n generalizing a with
  | zero => simp only [warmupCount]; omega
  | succ n ih =>
    rw [warmupCount, ih (a + 1)]
    by_cases h : 1000 < a <;> simp only [h, if_true, if_false] <;> omega

theorem updateStep_cont {cfg : EngineConfig α} {it : IterFn α π} {pc : π}
    {st s : EngineState α} (h : updateStep cfg it pc st = .cont s) :
    st.running = true ∧ s.i = st.i + 1 ∧ s.running = true ∧ s.previousX = st.x ∧
    s.draws = st.draws ++ drawEvents cfg st ∧
    s.lyapunovNumIter = st.lyapunovNumIter + (if 1000 < st.i then 1 else 0) ∧
    it st.x st.y pc = some (s.x, s.y) := by
  by_cases hr : st.running = true
  case neg =>
    rw [updateStep, if_neg hr] at h
    simp at h
  case pos =>
    rw [updateStep, if_pos hr, updateStepAux] at h
    by_cases hesc : escapeB (drawPhase cfg st) = true
    · rw [if_pos hesc] at h; simp at h
    · rw [if_neg hesc] at h
      cases hit : it (drawPhase cfg st).x (drawPhase cfg st).y pc with
      | none => rw [hit] at h; simp at h
      | some p =>
        obtain ⟨nx, ny⟩ := p
        rw [hit] at h
        dsimp only at h
        by_cases hnan : (nx.isNaN || ny.isNaN) = true
        · rw [if_pos hnan] at h; simp at h
        · rw [if_neg hnan] at h
          by_cases hcv : (jlt (jabs (jsub (drawPhase cfg st).x nx)) (.fin (eta α)) &&
              jlt (jabs (jsub (drawPhase cfg st).y ny)) (.fin (eta α)) &&
              decide (50 < (drawPhase cfg st).i)) = true
          · rw [if_pos hcv] at h; simp at h
          · rw [if_neg hcv] at h
            cases hit2 : it (drawPhase cfg st).xe (drawPhase cfg st).ye pc with
            | none => rw [hit2] at h; simp at h
            | some q =>
              obtain ⟨nex, ney⟩ := q
              rw [hit2] at h
              dsimp only at h
              by_cases hw : (1000 < (drawPhase cfg st).i)
              · rw [if_pos (by simpa using hw)] at h
                by_cases hln : (drawPhase cfg st).lyapunov.isNaN = true
                · rw [if_pos hln] at h; simp at h
                · rw [if_neg hln] at h
                  by_cases hln2 : (jadd (drawPhase cfg st).lyapunov
                      (cfg.logF (jdiv (cfg.sqrtF (jadd (jmul (jsub nx nex) (jsub nx nex))
                        (jmul (jsub ny ney) (jsub ny ney)))) (d0 cfg)))).isNaN = true
                  · rw [if_pos hln2] at h; simp at h
                  · rw [if_neg hln2] at h
                    injection h with h
                    subst h
                    rw [drawPhase_i] at hw
                    refine ⟨hr, by simp [drawPhase_i], by simp [drawPhase_running, hr],
                      by simp [drawPhase_x, drawPhase_previousX], by simp [drawPhase_draws],
                      by simp [drawPhase_count, drawPhase_i, hw], ?_⟩
                    rw [drawPhase_x, drawPhase_y] at hit
                    exact hit
              · rw [if_neg (by simpa using hw)] at h
                injection h with h
                subst h
                rw [drawPhase_i] at hw
                refine ⟨hr, by simp [drawPhase_i], by simp [drawPhase_running, hr],
                  by simp [drawPhase_x, drawPhase_previousX], by simp [drawPhase_draws],
                  by simp [drawPhase_count, drawPhase_i, hw], ?_⟩
                rw [drawPhase_x, drawPhase_y] at hit
                exact hit

theorem updateStep_halted {cfg : EngineConfig α} {it : IterFn α π} {pc : π}
    {st s : EngineState α} {o : Outcome} (h : updateStep cfg it pc st = .halted o s) :
    o ≠ .completed ∧ o ≠ .outOfFuel ∧
      (s.draws = st.draws ∨ s.draws = st.draws ++ drawEvents cfg st) := by
  by_cases hr : st.running = true
  case neg =>
    rw [updateStep, if_neg hr] at h
    injection h with h1 h2
    subst h1; subst h2
    exact ⟨by simp, by simp, Or.inl rfl⟩
  case pos =>
    rw [updateStep, if_pos hr, updateStepAux] at h
    have hdr : ∀ o2 s2, StepRes.halted o2 s2 = StepRes.halted o s →
        o ≠ Outcome.completed ∧ o ≠ Outcome.outOfFuel ∧
          (s.draws = st.draws ∨ s.draws = st.draws ++ drawEvents cfg st) → True := fun _ _ _ _ => trivial
    clear hdr
    by_cases hesc : escapeB (drawPhase cfg st) = true
    · rw [if_pos hesc] at h
      injection h with h1 h2
      subst h1; subst h2
      exact ⟨by simp, by simp, Or.inr (by simp [stopRun, drawPhase_draws])⟩
    · rw [if_neg hesc] at h
      cases hit : it (drawPhase cfg st).x (drawPhase cfg st).y pc with
      | none =>
        rw [hit] at h
        injection h with h1 h2
        subst h1; subst h2
        exact ⟨by simp, by simp, Or.inr (by simp [stopRun, drawPhase_draws])⟩
      | some p =>
        obtain ⟨nx, ny⟩ := p
        rw [hit] at h
        dsimp only at h
        by_cases hnan : (nx.isNaN || ny.isNaN) = true
        · rw [if_pos hnan] at h
          injection h with h1 h2
          subst h1; subst h2
          exact ⟨by simp, by simp, Or.inr (by simp [stopRun, drawPhase_draws])⟩
        · rw [if_neg hnan] at h
          by_cases hcv : (jlt (jabs (jsub (drawPhase cfg st).x nx)) (.fin (eta α)) &&
              jlt (jabs (jsub (drawPhase cfg st).y ny)) (.fin (eta α)) &&
              decide (50 < (drawPhase cfg st).i)) = true
          · rw [if_pos hcv] at h
            injection h with h1 h2
            subst h1; subst h2
            exact ⟨by simp, by simp, Or.inr (by simp [stopRun, drawPhase_draws])⟩
          · rw [if_neg hcv] at h
            cases hit2 : it (drawPhase cfg st).xe (drawPhase cfg st).ye pc with
            | none =>
              rw [hit2] at h
              injection h with h1 h2
              subst h1; subst h2
              exact ⟨by simp, by simp, Or.inr (by simp [drawPhase_draws])⟩
            | some q =>
              obtain ⟨nex, ney⟩ := q
              rw [hit2] at h
              dsimp only at h
              by_cases hw : (1000 < (drawPhase cfg st).i)
              · rw [if_pos (by simpa using hw)] at h
                by_cases hln : (drawPhase cfg st).lyapunov.isNaN = true
                · rw [if_pos hln] at h
                  injection h with h1 h2
                  subst h1; subst h2
                  exact ⟨by simp, by simp, Or.inr (by simp [stopRun, drawPhase_draws])⟩
                · rw [if_neg hln] at h
                  by_cases hln2 : (jadd (drawPhase cfg st).lyapunov
                      (cfg.logF (jdiv (cfg.sqrtF (jadd (jmul (jsub nx nex) (jsub nx nex))
                        (jmul (jsub ny ney) (jsub ny ney)))) (d0 cfg)))).isNaN = true
                  · rw [if_pos hln2] at h
                    injection h with h1 h2
                    subst h1; subst h2
                    exact ⟨by simp, by simp, Or.inr (by simp [stopRun, drawPhase_draws])⟩
                  · rw [if_neg hln2] at h
                    simp at h
              · rw [if_neg (by simpa using hw)] at h
                simp at h

theorem updateLoop_ran {cfg : EngineConfig α} {it : IterFn α π} {pc : π}
    {n : ℕ} {st s : EngineState α} (h : updateLoop cfg it pc n st = .ran s) :
    s.i = st.i + n ∧
    s.lyapunovNumIter = st.lyapunovNumIter + warmupCount st.i n ∧
    s.running = st.running := by
  induction n generalizing st with
  | zero =>
    rw [updateLoop] at h
    injection h with h
    subst h
    simp [warmupCount]
  | succ n ih =>
    rw [updateLoop] at h
    cases hs : updateStep cfg it pc st with
    | halted o s2 => rw [hs] at h; simp at h
    | cont s1 =>
      rw [hs] at h
      dsimp only at h
      obtain ⟨hr, hi, hr1, _, _, hc, _⟩ := updateStep_cont hs
      obtain ⟨ihi, ihc, ihr⟩ := ih h
      refine ⟨by omega, ?_, by rw [ihr, hr1, hr]⟩
      rw [ihc, hc, hi, warmupCount]
      omega

theorem updateLoop_halted_ne {cfg : EngineConfig α} {it : IterFn α π} {pc : π}
    {n : ℕ} {st s : EngineState α} {o : Outcome}
    (h : updateLoop cfg it pc n st = .halted o s) :
    o ≠ .completed ∧ o ≠ .outOfFuel := by
  induction n generalizing st with
  | zero => rw [updateLoop] at h; simp at h
  | succ n ih =>
    rw [updateLoop] at h
    cases hs : updateStep cfg it pc st with
    | halted o2 s2 =>
      rw [hs] at h
      dsimp only at h
      injection h with h1 h2
      subst h1
      exact ⟨(updateStep_halted hs).1, (updateStep_halted hs).2.1⟩
    | cont s1 =>
      rw [hs] at h
      dsimp only at h
      exact ih h

theorem updateLoop_add (cfg : EngineConfig α) (it : IterFn α π) (pc : π)
    (a b : ℕ) (st : EngineState α) :
    updateLoop cfg it pc (a + b) st =
      match updateLoop cfg it pc a st with
      | .halted o s => .halted o s
      | .ran s => updateLoop cfg it pc b s := by
  induction a generalizing st with
  | zero => rw [Nat.zero_add, updateLoop]
  | succ a ih =>
    rw [Nat.succ_add, updateLoop, updateLoop]
    cases hs : updateStep cfg it pc st with
    | halted o s2 => rfl
    | cont s1 => exact ih s1

theorem sliceEnd_cont {st s2 : EngineState α} (h : sliceEnd st = StepRes.cont s2) :
    s2.i = st.i ∧ s2.lyapunovNumIter = st.lyapunovNumIter ∧
    s2.running = st.running ∧ s2.draws = st.draws := by
  rw [sliceEnd] at h
  by_cases hc : st.lyapunovNumIter ≠ 0
  · rw [if_pos hc] at h
    dsimp only at h
    by_cases hn : (jdiv st.lyapunov (.fin (st.lyapunovNumIter : α))).isNaN = true
    · rw [if_pos hn] at h; simp at h
    · rw [if_neg hn] at h
      injection h with h
      subst h
      exact ⟨rfl, rfl, rfl, rfl⟩
  · rw [if_neg hc] at h
    injection h with h
    subst h
    exact ⟨rfl, rfl, rfl, rfl⟩

theorem sliceEnd_halted {st s2 : EngineState α} {o : Outcome}
    (h : sliceEnd st = StepRes.halted o s2) : o = .lyapunovFault := by
  rw [sliceEnd] at h
  by_cases hc : st.lyapunovNumIter ≠ 0
  · rw [if_pos hc] at h
    dsimp only at h
    by_cases hn : (jdiv st.lyapunov (.fin (st.lyapunovNumIter : α))).isNaN = true
    · rw [if_pos hn] at h
      injection h with h1 h2
      exact h1.symm
    · rw [if_neg hn] at h; simp at h
  · rw [if_neg hc] at h; simp at h

/-- On any run that reaches the `completed` outcome, the Lyapunov sample
count equals the budget minus 1001: samples are taken exactly at the loop
indices 1001 up to iterations minus 1 (the sample condition is `i > 1000`),
provided the budget is a multiple of the 1000-iteration slice size, so that
the loop stops exactly at the budget. -/
theorem runSlices_completed_count {cfg : EngineConfig α} {pc : π}
    {edits : ℕ → Option (CatalogEdit α π)} (hmod : cfg.iterations % 1000 = 0) :
    ∀ (fuel k : ℕ) (cat : Catalog α π) (st : EngineState α),
      st.i % 1000 = 0 → st.lyapunovNumIter = st.i - 1001 → st.running = true →
      (st.i = 0 ∨ st.i < cfg.iterations) →
      (runSlices cfg pc edits fuel k cat st).outcome = .completed →
      (runSlices cfg pc edits fuel k cat st).st.lyapunovNumIter = cfg.iterations - 1001 ∧
        (runSlices cfg pc edits fuel k cat st).st.i = cfg.iterations := by
  intro fuel
  induction fuel with
  | zero =>
    intro k cat st _ _ _ _ hout
    rw [runSlices] at hout
    simp at hout
  | succ fuel ih =>
    intro k cat st hi hcount hrun hlt hout
    rw [runSlices] at hout ⊢
    cases hL : updateLoop cfg cat.customIterate pc (min cfg.iterations 1000) st with
    | halted o s =>
      rw [hL] at hout
      exact absurd hout (updateLoop_halted_ne hL).1
    | ran s =>
      rw [hL] at hout
      dsimp only at hout ⊢
      obtain ⟨hsi, hscount, hsrun⟩ := updateLoop_ran hL
      cases hS : sliceEnd s with
      | halted o2 s2 =>
        rw [hS] at hout
        rw [sliceEnd_halted hS] at hout
        simp at hout
      | cont s2 =>
        rw [hS] at hout
        dsimp only at hout ⊢
        obtain ⟨h2i, h2c, h2r, _⟩ := sliceEnd_cont hS
        have hs2run : s2.running = true := by rw [h2r, hsrun, hrun]
        by_cases hb : (s2.running && decide (s2.i < cfg.iterations)) = true
        · rw [if_pos hb] at hout ⊢
          apply ih
          · omega
          · rw [h2c, hscount, hcount, warmupCount_eq]
            omega
          · exact hs2run
          · right
            have := (Bool.and_eq_true _ _).mp hb
            exact of_decide_eq_true this.2
          · exact hout
        · rw [if_neg hb] at hout ⊢
          rw [hs2run] at hb
          have hge : ¬ s2.i < cfg.iterations := by
            intro hlt2
            exact hb (by simp [hlt2])
          have hile : s2.i ≤ cfg.iterations := by omega
          have hieq : s2.i = cfg.iterations := by omega
          constructor
          · show (stopRun s2).lyapunovNumIter = _
            have : (stopRun s2).lyapunovNumIter = s2.lyapunovNumIter := rfl
            rw [this, h2c, hscount, hcount, warmupCount_eq]
            omega
          · show (stopRun s2).i = _
            have : (stopRun s2).i = s2.i := rfl
            rw [this, hieq]

theorem sliceEnd_cont_fields {st s2 : EngineState α} (h : sliceEnd st = StepRes.cont s2) :
    s2.x = st.x ∧ s2.y = st.y ∧ s2.previousX = st.previousX := by
  rw [sliceEnd] at h
  by_cases hc : st.lyapunovNumIter ≠ 0
  · rw [if_pos hc] at h
    dsimp only at h
    by_cases hn : (jdiv st.lyapunov (.fin (st.lyapunovNumIter : α))).isNaN = true
    · rw [if_pos hn] at h; simp at h
    · rw [if_neg hn] at h
      injection h with h
      subst h
      exact ⟨rfl, rfl, rfl⟩
  · rw [if_neg hc] at h
    injection h with h
    subst h
    exact ⟨rfl, rfl, rfl⟩

theorem sliceEnd_halted_draws {st s2 : EngineState α} {o : Outcome}
    (h : sliceEnd st = StepRes.halted o s2) : s2.draws = st.draws := by
  rw [sliceEnd] at h
  by_cases hc : st.lyapunovNumIter ≠ 0
  · rw [if_pos hc] at h
    dsimp only at h
    by_cases hn : (jdiv st.lyapunov (.fin (st.lyapunovNumIter : α))).isNaN = true
    · rw [if_pos hn] at h
      injection h with h1 h2
      subst h2
      rfl
    · rw [if_neg hn] at h; simp at h
  · rw [if_neg hc] at h; simp at h

/-- Control actions that never replace the custom iterate function do not
change the result of a run in progress: the run reads the iterate function
live, but a parameter-set replacement only swaps the catalog slot, while the
run keeps the parameter object it captured at start. -/
theorem runSlices_param_edits_id {cfg : EngineConfig α} {pc : π}
    {edits : ℕ → Option (CatalogEdit α π)}
    (hp : ∀ n f, edits n ≠ some (.setIterate f)) :
    ∀ (fuel k : ℕ) (cat cat2 : Catalog α π) (st : EngineState α),
      cat.customIterate = cat2.customIterate →
      runSlices cfg pc edits fuel k cat st = runSlices cfg pc noEdits fuel k cat2 st := by
  intro fuel
  induction fuel with
  | zero => intro k cat cat2 st _; rw [runSlices, runSlices]
  | succ fuel ih =>
    intro k cat cat2 st hcat
    rw [runSlices, runSlices, hcat]
    cases hL : updateLoop cfg cat2.customIterate pc (min cfg.iterations 1000) st with
    | halted o s => rfl
    | ran s =>
      dsimp only
      cases hS : sliceEnd s with
      | halted o2 s2 => rfl
      | cont s2 =>
        dsimp only
        by_cases hb : (s2.running && decide (s2.i < cfg.iterations)) = true
        · rw [if_pos hb, if_pos hb]
          dsimp only [noEdits]
          cases he : edits k with
          | none => exact ih (k + 1) cat cat2 s2 hcat
          | some e =>
            cases e with
            | setIterate f => exact absurd he (hp k f)
            | setParams p => exact ih (k + 1) _ cat2 s2 hcat
        · rw [if_neg hb, if_neg hb]

theorem drawEvents_mem {cfg : EngineConfig α} {st : EngineState α} {e : DrawEvent α}
    (h : e ∈ drawEvents cfg st) :
    e.i = st.i ∧ e.prevArg = colourArg cfg st.previousX := by
  rw [drawEvents] at h
  by_cases hv : visibleB cfg st.x st.y = true
  · rw [if_pos hv] at h
    simp only [List.mem_singleton] at h
    subst h
    exact ⟨rfl, rfl⟩
  · rw [if_neg hv] at h
    simp at h

theorem updateStep_synced_cont {cfg : EngineConfig α} {it : IterFn α π} {pc : π}
    {st s : EngineState α} (hsy : Synced cfg it pc st)
    (h : updateStep cfg it pc st = .cont s) : Synced cfg it pc s := by
  obtain ⟨hx, hy, hp, hd⟩ := hsy
  obtain ⟨_, hi, _, hprev, hdraws, _, hit⟩ := updateStep_cont h
  have htr : trajectory it pc cfg.x0 cfg.y0 (st.i + 1) = (s.x, s.y) := by
    rw [trajectory]
    rw [← hx, ← hy, hit]
    rfl
  refine ⟨?_, ?_, ?_, ?_⟩
  · rw [hi, htr]
  · rw [hi, htr]
  · rw [hi, hprev, hx, specPrevX]
    simp
  · intro e he
    rw [hdraws] at he
    rcases List.mem_append.mp he with h1 | h2
    · exact hd e h1
    · obtain ⟨hei, hearg⟩ := drawEvents_mem h2
      rw [hearg, hei, hp]

theorem updateStep_synced_halted {cfg : EngineConfig α} {it : IterFn α π} {pc : π}
    {st s : EngineState α} {o : Outcome} (hsy : Synced cfg it pc st)
    (h : updateStep cfg it pc st = .halted o s) :
    ∀ e ∈ s.draws, e.prevArg = colourArg cfg (specPrevX it pc cfg.x0 cfg.y0 e.i) := by
  obtain ⟨hx, hy, hp, hd⟩ := hsy
  rcases (updateStep_halted h).2.2 with hdr | hdr
  · rw [hdr]; exact hd
  · rw [hdr]
    intro e he
    rcases List.mem_append.mp he with h1 | h2
    · exact hd e h1
    · obtain ⟨hei, hearg⟩ := drawEvents_mem h2
      rw [hearg, hei, hp]

theorem updateLoop_synced {cfg : EngineConfig α} {it : IterFn α π} {pc : π} :
    ∀ {n : ℕ} {st : EngineState α}, Synced cfg it pc st →
      (∀ s, updateLoop cfg it pc n st = .ran s → Synced cfg it pc s) ∧
      (∀ o s, updateLoop cfg it pc n st = .halted o s →
        ∀ e ∈ s.draws, e.prevArg = colourArg cfg (specPrevX it pc cfg.x0 cfg.y0 e.i)) := by
  intro n
  induction n with
  | zero =>
    intro st hsy
    constructor
    · intro s h
      rw [updateLoop] at h
      injection h with h
      subst h
      exact hsy
    · intro o s h
      rw [updateLoop] at h
      simp at h
  | succ n ih =>
    intro st hsy
    constructor
    · intro s h
      rw [updateLoop] at h
      cases hs : updateStep cfg it pc st with
      | halted o2 s2 => rw [hs] at h; simp at h
      | cont s1 =>
        rw [hs] at h
        dsimp only at h
        exact (ih (updateStep_synced_cont hsy hs)).1 s h
    · intro o s h
      rw [updateLoop] at h
      cases hs : updateStep cfg it pc st with
      | halted o2 s2 =>
        rw [hs] at h
        dsimp only at h
        injection h with h1 h2
        subst h2
        exact updateStep_synced_halted hsy hs
      | cont s1 =>
        rw [hs] at h
        dsimp only at h
        exact (ih (updateStep_synced_cont hsy hs)).2 o s h

theorem sliceEnd_synced {cfg : EngineConfig α} {it : IterFn α π} {pc : π}
    {st s2 : EngineState α} (hsy : Synced cfg it pc st)
    (h : sliceEnd st = StepRes.cont s2) : Synced cfg it pc s2 := by
  obtain ⟨hx, hy, hp, hd⟩ := hsy
  obtain ⟨hi, _, _, hdr⟩ := sliceEnd_cont h
  obtain ⟨h2x, h2y, h2p⟩ := sliceEnd_cont_fields h
  exact ⟨by rw [h2x, hi, hx], by rw [h2y, hi, hy], by rw [h2p, hi, hp],
    by rw [hdr]; exact hd⟩

theorem runSlices_synced {cfg : EngineConfig α} {it : IterFn α π} {pc : π} :
    ∀ (fuel k : ℕ) (cat : Catalog α π) (st : EngineState α),
      cat.customIterate = it → Synced cfg it pc st →
      ∀ e ∈ (runSlices cfg pc noEdits fuel k cat st).st.draws,
        e.prevArg = colourArg cfg (specPrevX it pc cfg.x0 cfg.y0 e.i) := by
  intro fuel
  induction fuel with
  | zero =>
    intro k cat st _ hsy e he
    rw [runSlices] at he
    exact hsy.2.2.2 e he
  | succ fuel ih =>
    intro k cat st hcat hsy e he
    rw [runSlices, hcat] at he
    cases hL : updateLoop cfg it pc (min cfg.iterations 1000) st with
    | halted o s =>
      rw [hL] at he
      exact (updateLoop_synced hsy).2 o s hL e he
    | ran s =>
      rw [hL] at he
      dsimp only at he
      have hsy2 := (updateLoop_synced hsy).1 s hL
      cases hS : sliceEnd s with
      | halted o2 s2 =>
        rw [hS] at he
        dsimp only at he
        rw [sliceEnd_halted_draws hS] at he
        exact hsy2.2.2.2 e he
      | cont s2 =>
        rw [hS] at he
        dsimp only at he
        have hsy3 := sliceEnd_synced hsy2 hS
        by_cases hb : (s2.running && decide (s2.i < cfg.iterations)) = true
        · rw [if_pos hb] at he
          exact ih (k + 1) cat s2 hcat hsy3 e he
        · rw [if_neg hb] at he
          exact hsy3.2.2.2 e he

theorem initState_synced {cfg : EngineConfig α} {it : IterFn α π} {pc : π} :
    Synced cfg it pc (initState cfg) := by
  refine ⟨?_, ?_, ?_, ?_⟩
  · rw [initState, trajectory]
  · rw [initState, trajectory]
  · rw [initState, specPrevX]
    simp
  · intro e he
    rw [initState] at he
    simp at he

theorem initState_synced_run {cfg : EngineConfig α} {cat : Catalog α π} :
    ∀ e ∈ (runUpdate cfg cat noEdits).st.draws,
      e.prevArg = colourArg cfg
        (specPrevX cat.customIterate cat.customParams cfg.x0 cfg.y0 e.i) := by
  intro e he
  exact runSlices_synced (cfg.iterations + 1) 0 cat (initState cfg) rfl initState_synced e he

/-- The sample-count consequence of completion, at the level of a whole run:
a run that ends `completed` with a budget that is a multiple of the slice
size has taken exactly `iterations - 1001` Lyapunov samples (natural-number
subtraction), and its final loop counter equals the budget. -/
theorem runUpdate_completed_count {cfg : EngineConfig α} {cat : Catalog α π}
    {edits : ℕ → Option (CatalogEdit α π)} (hmod : cfg.iterations % 1000 = 0)
    (hout : (runUpdate cfg cat edits).outcome = .completed) :
    (runUpdate cfg cat edits).st.lyapunovNumIter = cfg.iterations - 1001 ∧
      (runUpdate cfg cat edits).st.i = cfg.iterations := by
  rw [runUpdate] at hout ⊢
  exact runSlices_completed_count hmod (cfg.iterations + 1) 0 cat (initState cfg)
    rfl rfl rfl (Or.inl rfl) hout

theorem cfgIdent_step_congr (b n : ℕ) (st : EngineState ℚ) :
    updateStep (cfgIdent b) identIter () st = updateStep (cfgIdent n) identIter () st := rfl

theorem cfgIdent_loop_congr (b : ℕ) :
    ∀ (n : ℕ) (st : EngineState ℚ),
      updateLoop (cfgIdent b) identIter () n st = updateLoop (cfgIdent 52) identIter () n st := by
  intro n
  induction n with
  | zero => intro st; rw [updateLoop, updateLoop]
  | succ n ih =>
    intro st
    rw [updateLoop, updateLoop, cfgIdent_step_congr b 52]
    cases updateStep (cfgIdent 52) identIter () st with
    | halted o s => rfl
    | cont s => exact ih s

theorem jle_fin_iff {a b : α} : jle (JSNum.fin a) (JSNum.fin b) = true ↔ a ≤ b := by
  simp [jle]

theorem jlt_fin_iff {a b : α} : jlt (JSNum.fin a) (JSNum.fin b) = true ↔ a < b := by
  simp [jlt]


set_option maxHeartbeats 8000000 in
/-- Key facts of the two-thousand-iteration negFlip run, evaluated by the
engine: it completes, with final loop counter 2000, with 999 Lyapunov
samples (iterations 1001 to 1999), and writes no pixel. -/
theorem sharedRunFacts :
    (runUpdate cfgShared catShared noEdits).outcome = .completed ∧
    (runUpdate cfgShared catShared noEdits).st.i = 2000 ∧
    (runUpdate cfgShared catShared noEdits).st.lyapunovNumIter = 999 := by
  decide

set_option maxHeartbeats 8000000 in
/-- Key facts of the same run with the custom iterate function replaced
between the first and second slice: the run picks up the new function and
converges at iteration 1001. -/
theorem c4EditedFacts :
    (runUpdate cfgShared catShared c4edits).outcome = .converged ∧
    (runUpdate cfgShared catShared c4edits).st.i = 1001 := by
  decide

/-- C2 counterexample: at the 400 by 400 viewport with zoom 100 centred on
the origin, the x round-trip fails at column 0: colToX places the column at
logical x = -399/200, and xToCol rounds that back to column 1, not 0 (the
+0.5 offset of colToX and the round-half-up of xToCol shift every column by
one). -/
theorem C2_roundtrip_counterexample :
    xToCol (400 : ℚ) 100 0 (colToX 400 100 0 0) = 1 ∧ (1 : ℤ) ≠ 0 := by
  constructor
  · decide
  · decide

/-- C2 amended: for every integer column c and row r (any viewport with
nonzero zoom), the y round-trip is exact, `yToRow (rowToY r) = r`, but the x
round-trip is off by one: `xToCol (colToX c) = c + 1` (colToX adds half a
pixel while rowToY subtracts it, and Math.round carries the half up). -/
theorem C2_roundtrip_amended {α : Type} [LinearOrderedField α] [FloorRing α]
    (w h zm cx cy : α) (hz : 0 < zm) (c r : ℤ) :
    xToCol w zm cx (colToX w zm cx (c : α)) = c + 1 ∧
    yToRow h zm cy (rowToY h zm cy (r : α)) = r := by
  have hz' : zm ≠ 0 := ne_of_gt hz
  constructor
  · rw [xToCol, colToX, jsRound, add_sub_cancel_right, div_mul_cancel₀ _ hz']
    rw [show (c : α) + 1/2 - w/2 + w/2 + 1/2 = ((c + 1 : ℤ) : α) by push_cast; ring]
    exact Int.floor_intCast _
  · rw [yToRow, rowToY, jsRound, add_sub_cancel_right, div_mul_cancel₀ _ (neg_ne_zero.mpr hz')]
    rw [show (r : α) - 1/2 - h/2 + h/2 + 1/2 = ((r : ℤ) : α) by push_cast; ring]
    exact Int.floor_intCast _

/-- C2 witness: the amended round-trip at the concrete viewport of the
claim, column 7 and row 3. -/
theorem C2_roundtrip_witness :
    (0 : ℚ) < 100 ∧
    (xToCol (400 : ℚ) 100 0 (colToX 400 100 0 ((7 : ℤ) : ℚ)) = 7 + 1 ∧
      yToRow (400 : ℚ) 100 0 (rowToY 400 100 0 ((3 : ℤ) : ℚ)) = 3) :=
  ⟨by norm_num, C2_roundtrip_amended 400 400 100 0 0 (by norm_num) 7 3⟩

/-- C5 amended: a NaN coordinate in the iterate's return value faults the
run at that very iteration (running becomes false, the loop counter does not
advance). An infinite coordinate, by contrast, passes the isNaN test; see
the counterexample, where it ends the run as Escaped one iteration later. -/
theorem C5_nan_faults_amended {α : Type} [LinearOrderedField α] [FloorRing α]
    [DecidableEq α] [DecidableRel ((· < ·) : α → α → Prop)]
    [DecidableRel ((· ≤ ·) : α → α → Prop)] {π : Type}
    (cfg : EngineConfig α) (it : IterFn α π) (pc : π)
    (st : EngineState α) (nx ny : JSNum α)
    (hr : st.running = true) (hesc : escapeB (drawPhase cfg st) = false)
    (hit : it (drawPhase cfg st).x (drawPhase cfg st).y pc = some (nx, ny))
    (hnan : (nx.isNaN || ny.isNaN) = true) :
    updateStep cfg it pc st = .halted .faulted (stopRun (drawPhase cfg st)) ∧
    (stopRun (drawPhase cfg st)).i = st.i ∧
    (stopRun (drawPhase cfg st)).running = false := by
  refine ⟨?_, rfl, rfl⟩
  rw [updateStep, if_pos hr, updateStepAux, if_neg (by simp [hesc]), hit]
  dsimp only
  rw [if_pos hnan]

/-- C5 witness: the amended fault rule applied at the first call of a run of
nanIter. -/
theorem C5_nan_faults_witness :
    (initState (cfgIdent 50000)).running = true ∧
    escapeB (drawPhase (cfgIdent 50000) (initState (cfgIdent 50000))) = false ∧
    updateStep (cfgIdent 50000) nanIter () (initState (cfgIdent 50000)) =
      .halted .faulted (stopRun (drawPhase (cfgIdent 50000) (initState (cfgIdent 50000)))) :=
  ⟨rfl, by decide,
    (C5_nan_faults_amended (cfgIdent 50000) nanIter () (initState (cfgIdent 50000))
      .nan (.fin 0) rfl (by decide) rfl rfl).1⟩

/-- C5 counterexample: an iterate returning an infinite x coordinate does
not fault: the point is accepted and the run ends as Escaped at the next
iteration's escape check, not Faulted at the iteration that produced it. -/
theorem C5_infinity_counterexample :
    (runUpdate (cfgIdent 50000) catInf noEdits).outcome = .escaped ∧
    (runUpdate (cfgIdent 50000) catInf noEdits).st.i = 1 ∧
    Outcome.escaped ≠ .faulted := by
  refine ⟨by decide, by decide, by decide⟩

/-- C6 counterexample: in the 4 by 4 viewport at zoom 1 centred on the
origin, the point (12/5, -3/2) passes the engine's visibility test, yet
maps to column 4 and row 4, both out of the 0..3 pixel range. -/
theorem C6_visibility_bounds_counterexample :
    visibleB cfgTiny (.fin (12/5)) (.fin (-3/2)) = true ∧
    xToCol ((cfgTiny.width : ℚ)) cfgTiny.zoom cfgTiny.centreX (12/5) = 4 ∧
    yToRow ((cfgTiny.height : ℚ)) cfgTiny.zoom cfgTiny.centreY (-3/2) = 4 ∧
    ¬((4 : ℤ) < (cfgTiny.width : ℤ)) ∧ ¬((4 : ℤ) < (cfgTiny.height : ℤ)) := by
  refine ⟨by decide, by decide, by decide, by decide, by decide⟩

/-- C6 amended: the visibility test bounds the pixel only by 1 ≤ col ≤ W
and 0 ≤ row ≤ H; the two upper bounds are attained (see the counterexample),
so visibility alone does not establish col < W and row < H. -/
theorem C6_visibility_bounds_amended {α : Type} [LinearOrderedField α] [FloorRing α]
    [DecidableEq α] [DecidableRel ((· < ·) : α → α → Prop)]
    [DecidableRel ((· ≤ ·) : α → α → Prop)]
    (cfg : EngineConfig α) (x y : α) (hz : 0 < cfg.zoom)
    (hv : visibleB cfg (.fin x) (.fin y) = true) :
    1 ≤ xToCol (cfg.width : α) cfg.zoom cfg.centreX x ∧
    xToCol (cfg.width : α) cfg.zoom cfg.centreX x ≤ (cfg.width : ℤ) ∧
    0 ≤ yToRow (cfg.height : α) cfg.zoom cfg.centreY y ∧
    yToRow (cfg.height : α) cfg.zoom cfg.centreY y ≤ (cfg.height : ℤ) := by
  rw [visibleB] at hv
  simp only [Bool.and_eq_true] at hv
  obtain ⟨⟨⟨h1, h2⟩, h3⟩, h4⟩ := hv
  rw [jle_fin_iff, leftB, colToX, zero_add] at h1
  rw [jlt_fin_iff, rightB, colToX] at h2
  rw [jle_fin_iff, topB, rowToY] at h3
  rw [jlt_fin_iff, bottomB, rowToY, zero_sub] at h4
  have hz' : cfg.zoom ≠ 0 := ne_of_gt hz
  have hzneg : -cfg.zoom < 0 := neg_neg_of_pos hz
  have hx1 : 1/2 - (cfg.width : α)/2 ≤ (x - cfg.centreX) * cfg.zoom :=
    (div_le_iff hz).mp (by linarith)
  have hx2 : (x - cfg.centreX) * cfg.zoom < (cfg.width : α) + 1/2 - (cfg.width : α)/2 :=
    (lt_div_iff hz).mp (by linarith)
  have hy1 : (y - cfg.centreY) * -cfg.zoom ≤ (cfg.height : α) - 1/2 - (cfg.height : α)/2 :=
    (div_le_iff_of_neg hzneg).mp (by linarith)
  have hy2 : -(1/2) - (cfg.height : α)/2 < (y - cfg.centreY) * -cfg.zoom := by
    have h4' : y - cfg.centreY < (-(1/2) - (cfg.height : α)/2) / -cfg.zoom := by linarith
    exact (lt_div_iff_of_neg hzneg).mp h4'
  refine ⟨?_, ?_, ?_, ?_⟩
  · rw [xToCol, jsRound, Int.le_floor]
    push_cast
    linarith
  · have hlt : xToCol (cfg.width : α) cfg.zoom cfg.centreX x < (cfg.width : ℤ) + 1 := by
      rw [xToCol, jsRound, Int.floor_lt]
      push_cast
      linarith
    omega
  · rw [yToRow, jsRound, Int.le_floor]
    push_cast
    linarith
  · have hlt : yToRow (cfg.height : α) cfg.zoom cfg.centreY y < (cfg.height : ℤ) + 1 := by
      rw [yToRow, jsRound, Int.floor_lt]
      push_cast
      linarith
    omega

/-- C6 witness: the amended bounds at the origin point of the tiny
viewport. -/
theorem C6_visibility_bounds_witness :
    (0 : ℚ) < cfgTiny.zoom ∧ visibleB cfgTiny (.fin 0) (.fin 0) = true ∧
    (1 ≤ xToCol (cfgTiny.width : ℚ) cfgTiny.zoom cfgTiny.centreX 0 ∧
      xToCol (cfgTiny.width : ℚ) cfgTiny.zoom cfgTiny.centreX 0 ≤ (cfgTiny.width : ℤ) ∧
      0 ≤ yToRow (cfgTiny.height : ℚ) cfgTiny.zoom cfgTiny.centreY 0 ∧
      yToRow (cfgTiny.height : ℚ) cfgTiny.zoom cfgTiny.centreY 0 ≤ (cfgTiny.height : ℤ)) :=
  ⟨by decide, by decide, C6_visibility_bounds_amended cfgTiny 0 0 (by decide) (by decide)⟩

set_option maxHeartbeats 8000000 in
/-- C1: getLyapunovExponent is claimed to return the accumulated sum of
sampled logarithms divided by the number of samples. The code only performs
that division at the end of a slice (update lines 476 to 483), so a run that
halts mid-slice keeps the raw sum. In this run the point escapes at
iteration 1003 after two post-warm-up samples, each contributing 1 to the
sum through the logarithm stand-in: the field this.lyapunov is left at the
raw sum 2 instead of the average 2 / 2 = 1. -/
theorem C1_lyapunov_not_averaged :
    (runUpdate cfgEscape catEscape noEdits).outcome = .escaped ∧
    (runUpdate cfgEscape catEscape noEdits).st.i = 1003 ∧
    (runUpdate cfgEscape catEscape noEdits).st.lyapunovNumIter = 2 ∧
    (runUpdate cfgEscape catEscape noEdits).st.lyapunov = .fin 2 ∧
    jdiv (JSNum.fin 2) (JSNum.fin (2 : ℚ)) = .fin 1 ∧
    JSNum.fin (2 : ℚ) ≠ .fin 1 := by
  refine ⟨by decide, by decide, by decide, by decide, by decide, by decide⟩

/-- C3 amended: on a run that ends Completed with a budget that is a
multiple of the slice size 1000, the number of Lyapunov samples is
iterations - 1001, not iterations - 1000: the warm-up test `i > 1000` first
passes at i = 1001, so iterations 1001 through iterations - 1 sample. -/
theorem C3_sample_count_amended (cfg : EngineConfig α) (cat : Catalog α π)
    (edits : ℕ → Option (CatalogEdit α π)) (hmod : cfg.iterations % 1000 = 0)
    (hout : (runUpdate cfg cat edits).outcome = .completed) :
    (runUpdate cfg cat edits).st.lyapunovNumIter = cfg.iterations - 1001 :=
  (runUpdate_completed_count hmod hout).1

/-- C3 counterexample: the de Jong scenario of the claim (budget 100000)
cannot both complete and take 100000 - 1000 = 99000 samples: completion
forces exactly 100000 - 1001 = 98999 samples. -/
theorem C3_dejong_counterexample :
    ¬((runUpdate cfgDeJong catDeJong noEdits).outcome = .completed ∧
      (runUpdate cfgDeJong catDeJong noEdits).st.lyapunovNumIter = 99000) := by
  rintro ⟨h1, h2⟩
  have h3 := (runUpdate_completed_count (by rfl) h1).1
  have h4 : cfgDeJong.iterations = 100000 := rfl
  rw [h3, h4] at h2
  omega

/-- C3 witness: the amended count at the completed two-thousand-iteration
run: 2000 - 1001 = 999 samples. -/
theorem C3_sample_count_witness :
    cfgShared.iterations % 1000 = 0 ∧
    (runUpdate cfgShared catShared noEdits).outcome = .completed ∧
    (runUpdate cfgShared catShared noEdits).st.lyapunovNumIter = cfgShared.iterations - 1001 :=
  ⟨by decide, sharedRunFacts.1,
    C3_sample_count_amended cfgShared catShared noEdits (by decide) sharedRunFacts.1⟩

/-- C4 counterexample: replacing the custom iteration function between
slices does alter the running run, because update() reads sys.iterate anew
at every call. With the same start, the unedited run completes at i = 2000
while the run whose iterate is replaced after the first slice converges at
i = 1001: the two runs differ. -/
theorem C4_mid_run_edit_counterexample :
    (runUpdate cfgShared catShared c4edits).outcome = .converged ∧
    (runUpdate cfgShared catShared noEdits).outcome = .completed ∧
    runUpdate cfgShared catShared c4edits ≠ runUpdate cfgShared catShared noEdits := by
  refine ⟨c4EditedFacts.1, sharedRunFacts.1, ?_⟩
  intro heq
  have h1 := c4EditedFacts.1
  rw [heq, sharedRunFacts.1] at h1
  cases h1

/-- C4 amended: only parameter-set edits are harmless. A schedule of edits
that never replaces the iteration function (setCustomParameterSet only)
leaves the run identical to the unedited run, because update() captured the
parameter object at start; replacing the iterate function is not harmless
(see the counterexample). -/
theorem C4_param_edit_amended (cfg : EngineConfig α) (cat : Catalog α π)
    (edits : ℕ → Option (CatalogEdit α π))
    (hp : ∀ n f, edits n ≠ some (.setIterate f)) :
    runUpdate cfg cat edits = runUpdate cfg cat noEdits := by
  rw [runUpdate, runUpdate]
  exact runSlices_param_edits_id hp (cfg.iterations + 1) 0 cat cat (initState cfg) rfl

/-- C4 witness: the amended immunity at the concrete schedule that replaces
the custom parameter set after the first slice. -/
theorem C4_param_edit_witness :
    runUpdate cfgShared catShared paramEditOnly = runUpdate cfgShared catShared noEdits :=
  C4_param_edit_amended cfgShared catShared paramEditOnly (by
    intro n f
    rw [paramEditOnly]
    split <;> simp)

/-- C7: a first iterate call returning NaN ends the run as Faulted with the
loop counter still 0 and running false, nothing drawn; and a subsequent
run of the same engine with a well-behaved function proceeds normally (here:
the identity function converges at i = 51). -/
theorem C7_nan_fault_containment :
    (runUpdate (cfgIdent 50000) catNan noEdits).outcome = .faulted ∧
    (runUpdate (cfgIdent 50000) catNan noEdits).st.i = 0 ∧
    (runUpdate (cfgIdent 50000) catNan noEdits).st.running = false ∧
    (runUpdate (cfgIdent 50000) catNan noEdits).st.draws = [] ∧
    (runUpdate (cfgIdent 50000) catIdent noEdits).outcome = .converged ∧
    (runUpdate (cfgIdent 50000) catIdent noEdits).st.i = 51 := by
  refine ⟨by decide, by decide, by decide, by decide, by decide, by decide⟩

/-- C8: with the custom system set to the identity function f(x, y) =
[x, y], a run with any iteration budget of at least 52 ends Converged with
the loop counter at 51: the convergence test needs both deltas below eta
and i > 50, which first holds at i = 51. -/
theorem C8_identity_converges (b : ℕ) (hb : 52 ≤ b) :
    (runUpdate (cfgIdent b) catIdent noEdits).outcome = .converged ∧
    (runUpdate (cfgIdent b) catIdent noEdits).st.i = 51 := by
  have h52 : updateLoop (cfgIdent b) identIter () 52 (initState (cfgIdent b)) =
      .halted .converged identHalt := by
    rw [cfgIdent_loop_congr b 52 (initState (cfgIdent b))]
    have hinit : initState (cfgIdent b) = initState (cfgIdent 52) := rfl
    rw [hinit]
    decide
  have hmin : min (cfgIdent b).iterations 1000 = 52 + (min b 1000 - 52) := by
    have hbb : (cfgIdent b).iterations = b := rfl
    rw [hbb]
    omega
  have hcat : (catIdent.customIterate : IterFn ℚ Unit) = identIter := rfl
  rw [runUpdate, runSlices, hcat, hmin, updateLoop_add, h52]
  exact ⟨rfl, rfl⟩

/-- C8 witness: the identity convergence at the concrete budget 50000. -/
theorem C8_identity_converges_witness :
    (52 : ℕ) ≤ 50000 ∧
    ((runUpdate (cfgIdent 50000) catIdent noEdits).outcome = .converged ∧
      (runUpdate (cfgIdent 50000) catIdent noEdits).st.i = 51) :=
  ⟨by norm_num, C8_identity_converges 50000 (by norm_num)⟩

/-- C9 counterexample: the claim says the fourth colour-mapper argument is
the previous x value of the trajectory. In the visible run below the second
pixel (iteration 1) receives 3/4 - the previous x value 1 mapped through
xToCol and divided by the canvas width - not the previous x value 1
itself. -/
theorem C9_colour_arg_counterexample :
    ((runUpdate cfgColour catIdent noEdits).st.draws.getD 1 defaultEvent).i = 1 ∧
    ((runUpdate cfgColour catIdent noEdits).st.draws.getD 1 defaultEvent).prevArg =
      .fin (3/4) ∧
    (trajectory identIter () cfgColour.x0 cfgColour.y0 0).1 = .fin 1 ∧
    JSNum.fin ((3 : ℚ)/4) ≠ .fin 1 := by
  refine ⟨by decide, by decide, by decide, by decide⟩

/-- C9 amended: every pixel a run writes receives as its fourth
colour-mapper argument not the previous x value itself but its screen
transform: previousX (wrapped by the canvas width when its column is
negative) mapped through xToCol and divided by the canvas width. -/
theorem C9_colour_arg_amended (cfg : EngineConfig α) (cat : Catalog α π)
    (e : DrawEvent α) (he : e ∈ (runUpdate cfg cat noEdits).st.draws) :
    e.prevArg = colourArg cfg
      (specPrevX cat.customIterate cat.customParams cfg.x0 cfg.y0 e.i) :=
  initState_synced_run e he

/-- C9 witness: the amended colour-argument law at the second pixel of the
concrete visible run. -/
theorem C9_colour_arg_witness :
    ((runUpdate cfgColour catIdent noEdits).st.draws.getD 1 defaultEvent) ∈
      (runUpdate cfgColour catIdent noEdits).st.draws ∧
    ((runUpdate cfgColour catIdent noEdits).st.draws.getD 1 defaultEvent).prevArg =
      colourArg cfgColour (specPrevX catIdent.customIterate catIdent.customParams
        cfgColour.x0 cfgColour.y0
        ((runUpdate cfgColour catIdent noEdits).st.draws.getD 1 defaultEvent).i) :=
  ⟨by decide, C9_colour_arg_amended cfgColour catIdent _ (by decide)⟩

theorem set_last_append {β : Type} (l : List β) (a b : β) :
    (l ++ [a]).set l.length b = l ++ [b] := by
  induction l with
  | nil => rfl
  | cons x xs ih => simp [List.set, ih]

/-- C10: for every system of the built-in catalog, the constructor's append
step adds exactly one parameter set - a copy of the previously-last one - at
the end: the existing sets stay in place as a prefix, the name is kept, the
length grows by one; consequently setCustomParameterSet on the resulting
system replaces only the appended slot and leaves every built-in set
unchanged; and the catalog keeps its systems in order (initAttractor is the
per-system append over attractorSystems, names unchanged). -/
theorem C10_constructor_appends_custom (s : CatSystem) (hs : s ∈ attractorSystems) :
    s.parameterSets ≠ [] ∧
    (appendCustom s).name = s.name ∧
    (appendCustom s).parameterSets = s.parameterSets ++ [s.parameterSets.getLastD []] ∧
    (appendCustom s).parameterSets.length = s.parameterSets.length + 1 ∧
    (∀ ps, (setCustomParameterSet (appendCustom s) ps).parameterSets =
      s.parameterSets ++ [ps]) ∧
    initAttractor = attractorSystems.map appendCustom ∧
    initAttractor.map CatSystem.name = attractorSystems.map CatSystem.name := by
  refine ⟨?_, rfl, rfl, by simp [appendCustom], ?_, rfl, by decide⟩
  · have hne : ∀ t ∈ attractorSystems, t.parameterSets ≠ [] := by decide
    exact hne s hs
  · intro ps
    have h1 : (appendCustom s).parameterSets =
        s.parameterSets ++ [s.parameterSets.getLastD []] := rfl
    rw [setCustomParameterSet, h1, List.length_append, List.length_singleton,
      Nat.add_sub_cancel]
    exact set_last_append _ _ _

/-- C10 witness: the append law at the Duffing system of the catalog. -/
theorem C10_constructor_appends_custom_witness :
    (⟨"Duffing", [[("a", 2.75), ("b", 0.2)]]⟩ : CatSystem) ∈ attractorSystems ∧
    ((⟨"Duffing", [[("a", 2.75), ("b", 0.2)]]⟩ : CatSystem).parameterSets ≠ [] ∧
      (appendCustom ⟨"Duffing", [[("a", 2.75), ("b", 0.2)]]⟩).name = "Duffing" ∧
      (appendCustom ⟨"Duffing", [[("a", 2.75), ("b", 0.2)]]⟩).parameterSets =
        [[("a", 2.75), ("b", 0.2)]] ++
          [([[("a", 2.75), ("b", 0.2)]] : List (List (String × ℚ))).getLastD []] ∧
      (appendCustom ⟨"Duffing", [[("a", 2.75), ("b", 0.2)]]⟩).parameterSets.length =
        ([[("a", 2.75), ("b", 0.2)]] : List (List (String × ℚ))).length + 1 ∧
      (∀ ps, (setCustomParameterSet
          (appendCustom ⟨"Duffing", [[("a", 2.75), ("b", 0.2)]]⟩) ps).parameterSets =
        [[("a", 2.75), ("b", 0.2)]] ++ [ps]) ∧
      initAttractor = attractorSystems.map appendCustom ∧
      initAttractor.map CatSystem.name = attractorSystems.map CatSystem.name) := by
  have hmem : (⟨"Duffing", [[("a", 2.75), ("b", 0.2)]]⟩ : CatSystem) ∈ attractorSystems := by
    decide
  exact ⟨hmem, C10_constructor_appends_custom ⟨"Duffing", [[("a", 2.75), ("b", 0.2)]]⟩ hmem⟩
